import Mathlib

/-
Verification of the diff-discrepancy mining pipeline (src/code_1.py).

The pipeline normalizes `git diff` output produced under two diff algorithms
(Myers and Histogram), compares the normalized texts, writes one dataset row
per qualifying (commit, modified-file) pair, and aggregates the discrepant
rows into four file-type categories.

The embedding models Python string primitives (`str.splitlines`, `str.strip`,
`str.startswith`, `"\n".join`) on `List Char`, and the pipeline loop, the
discrepancy verdict, and the aggregator as pure Lean functions translated
from the source.
-/

namespace DiffPipeline

/-- Characters that `str.splitlines` treats as line boundaries
(LF, CR, VT, FF, FS, GS, RS, NEL, LINE SEPARATOR, PARAGRAPH SEPARATOR;
CRLF is handled as a single boundary in `pySplitlines`). -/
def isLineBreakChar (c : Char) : Bool :=
  c = '\n' || c = '\r' || c = '\x0b' || c = '\x0c' ||
  c = '\x1c' || c = '\x1d' || c = '\x1e' || c = '\x85' ||
  c = '\u2028' || c = '\u2029'

/-- Characters stripped by Python `str.strip()` (those with `str.isspace()`):
space, tab, the line-boundary characters, US, and the Unicode space
characters. -/
def isPySpace (c : Char) : Bool :=
  c = ' ' || c = '\t' || isLineBreakChar c || c = '\x1f' ||
  c = '\u00a0' || c = '\u1680' || ('\u2000' ≤ c && c ≤ '\u200a') ||
  c = '\u202f' || c = '\u205f' || c = '\u3000'

/-- Prepend a character to the first line of a line list (used by
`pySplitlines` for a non-boundary character). -/
def consHead (c : Char) : List (List Char) → List (List Char)
  | [] => [[c]]
  | l :: ls => (c :: l) :: ls

/-- Python `str.splitlines()`: split at line-boundary characters, treating
CRLF as one boundary; a line terminated by a boundary is kept even if empty,
while the text after the last boundary forms a final line only if nonempty
(so `"a\n\n"` splits to `["a", ""]` and `"a\n"` splits to `["a"]`). -/
def pySplitlines : List Char → List (List Char)
  | [] => []
  | c :: cs =>
    if c = '\r' then
      match cs with
      | [] => [[]]
      | c2 :: rest =>
        if c2 = '\n' then [] :: pySplitlines rest else [] :: pySplitlines (c2 :: rest)
    else if isLineBreakChar c then
      [] :: pySplitlines cs
    else
      consHead c (pySplitlines cs)

/-- Python `str.strip()`: drop whitespace characters from both ends. -/
def pyStrip (l : List Char) : List Char :=
  ((l.dropWhile isPySpace).reverse.dropWhile isPySpace).reverse

/-- The filter of `normalize_diff`: Python
`line.startswith("index") or line.startswith("---") or line.startswith("+++")`.
A purely literal prefix test on the raw line. -/
def isNoiseLine (l : List Char) : Bool :=
  List.isPrefixOf "index".data l || List.isPrefixOf "---".data l ||
  List.isPrefixOf "+++".data l

/-- Python `"\n".join(lines)`. -/
def joinLines : List (List Char) → List Char
  | [] => []
  | [l] => l
  | l :: l2 :: ls => l ++ '\n' :: joinLines (l2 :: ls)

/-- The line list built by the comprehension in `normalize_diff`: keep the lines
that do not start with `index`/`---`/`+++`, and strip each kept line. -/
def normLines (l : List Char) : List (List Char) :=
  ((pySplitlines l).filter fun x => !isNoiseLine x).map pyStrip

/-- `normalize_diff` from src/code_1.py: split the diff text into lines,
drop the `index`/`---`/`+++` lines, strip the rest, and join with `"\n"`. -/
def normalize_diff (s : String) : String :=
  String.mk (joinLines (normLines s.data))

/-- `len(s.splitlines())` as used in the discrepancy condition. -/
def pyLineCount (s : String) : Nat :=
  (pySplitlines s.data).length

/-- The discrepancy verdict of src/code_1.py lines 95-96:
`"Yes" if (norm_myers != norm_hist or len(norm_myers.splitlines()) !=
len(norm_hist.splitlines())) else "No"`. -/
def discrepancyVerdict (normMyers normHist : String) : String :=
  if normMyers ≠ normHist ∨ pyLineCount normMyers ≠ pyLineCount normHist
  then "Yes" else "No"

/-- A modified file as yielded by the commit traverser: old and new path,
either of which may be absent (add/delete). -/
structure FileMod where
  old_path : Option String
  new_path : Option String
deriving DecidableEq

/-- A commit as yielded by the commit traverser: hash, parent hashes
(empty for a root commit), message, and the modified files. -/
structure Commit where
  hash : String
  parents : List String
  msg : String
  modified_files : List FileMod
deriving DecidableEq

/-- One entry of the `repos` configuration table: name, clone URL, and the
commit cap (`max_commits`). -/
structure RepoEntry where
  name : String
  url : String
  max_commits : Nat
deriving DecidableEq

/-- One row of the persisted dataset (the CSV written by the pipeline). -/
structure Row where
  repo : String
  old_file_path : String
  new_file_path : String
  commit_SHA : String
  parent_commit_SHA : String
  commit_message : String
  diff_myers : String
  diff_hist : String
  discrepancy : String
deriving DecidableEq

/-- The external `git diff` invocation, abstracted: arguments are repository
path, parent revision, commit hash, file path, and algorithm selector
(`"myers"` or `"histogram"`); the result is the captured raw diff text. -/
def GitDiff : Type := String → String → String → String → String → String

/-- The body of the inner `for mod in commit.modified_files` loop: skip the
file if either path is `None`, skip it if the commit has no parents,
otherwise run both diffs against the first parent, normalize them, compute
the verdict, and emit the single dataset row. -/
def rowsForMod (g : GitDiff) (repoName repoPath : String) (c : Commit)
    (m : FileMod) : List Row :=
  match m.old_path, m.new_path with
  | some oldPath, some newPath =>
    match c.parents with
    | [] => []
    | parent :: _ =>
      let dMyers := g repoPath parent c.hash newPath "myers"
      let dHist := g repoPath parent c.hash newPath "histogram"
      [⟨repoName, oldPath, newPath, c.hash, parent, String.mk (pyStrip c.msg.data),
        dMyers, dHist, discrepancyVerdict (normalize_diff dMyers) (normalize_diff dHist)⟩]
  | _, _ => []

/-- All rows a single commit contributes: one pass over its modified files. -/
def rowsForCommit (g : GitDiff) (repoName repoPath : String) (c : Commit) :
    List Row :=
  c.modified_files.flatMap (rowsForMod g repoName repoPath c)

/-- The `for commit in Repository(repo_path).traverse_commits()` loop with
its counter: `if commit_count >= max_commits: break`, then
`commit_count += 1` and the per-commit work. -/
def repoLoop (g : GitDiff) (repoName repoPath : String) (cap : Nat) :
    Nat → List Commit → List Row
  | _, [] => []
  | count, c :: cs =>
    if cap ≤ count then []
    else rowsForCommit g repoName repoPath c ++ repoLoop g repoName repoPath cap (count + 1) cs

/-- All rows one configured repository contributes, given the commit
sequence its traversal yields (`traverse` stands for
`Repository(repo_path).traverse_commits()`). -/
def repoRows (g : GitDiff) (traverse : String → List Commit) (r : RepoEntry) :
    List Row :=
  repoLoop g r.name ("repos/" ++ r.name) r.max_commits 0 (traverse ("repos/" ++ r.name))

/-- The whole dataset: repositories processed in configuration order. -/
def pipelineRows (g : GitDiff) (traverse : String → List Commit)
    (repos : List RepoEntry) : List Row :=
  repos.flatMap (repoRows g traverse)

/-- The static `repos` configuration table of src/code_1.py. -/
def reposConfig : List RepoEntry :=
  [⟨"MaxKB", "https://github.com/1Panel-dev/MaxKB.git", 100⟩,
   ⟨"police-brutality", "https://github.com/2020pb/police-brutality.git", 100⟩,
   ⟨"manim", "https://github.com/3b1b/manim.git", 300⟩]

/-- ASCII lowercasing, as performed by case-insensitive pandas matching. -/
def asciiLower (c : Char) : Char :=
  if 'A' ≤ c ∧ c ≤ 'Z' then Char.ofNat (c.toNat + 32) else c

/-- Substring test on character lists (`pat` occurs contiguously in `l`). -/
def hasSubstr (pat : List Char) : List Char → Bool
  | [] => List.isPrefixOf pat []
  | c :: cs => List.isPrefixOf pat (c :: cs) || hasSubstr pat cs

/-- Pandas `Series.str.contains(pat, case=False)` on one path (the three
patterns used — `test`, `README`, `LICENSE` — contain no regex
metacharacters, so matching is plain substring search). -/
def containsCI (pat s : String) : Bool :=
  hasSubstr (pat.data.map asciiLower) (s.data.map asciiLower)

/-- The tuple of extensions in the `Source Code` bucket. -/
def sourceExts : List String :=
  [".py", ".cpp", ".java", ".js", ".ts", ".c"]

/-- Pandas `Series.str.endswith(sourceExts)` on one path. -/
def endsWithAnySourceExt (s : String) : Bool :=
  sourceExts.any fun e => List.isSuffixOf e.data s.data

/-- The `Source Code` bucket predicate. -/
def catSourceCode (p : String) : Bool := endsWithAnySourceExt p

/-- The `Test Code` bucket predicate. -/
def catTestCode (p : String) : Bool := containsCI "test" p

/-- The `README` bucket predicate. -/
def catReadme (p : String) : Bool := containsCI "README" p

/-- The `LICENSE` bucket predicate. -/
def catLicense (p : String) : Bool := containsCI "LICENSE" p

/-- `mismatches = df[df["Discrepancy"] == "Yes"]`. -/
def mismatches (rows : List Row) : List Row :=
  rows.filter fun r => r.discrepancy == "Yes"

/-- The size of one category bucket: filter the discrepant rows by the
bucket path predicate (applied to `new_file_path`) and count. -/
def categoryCount (pred : String → Bool) (rows : List Row) : Nat :=
  ((mismatches rows).filter fun r => pred r.new_file_path).length

/-- The four counts printed by the reporter, in the dictionary insertion
order: Source Code, Test Code, README, LICENSE. -/
def categoryCounts (rows : List Row) : List Nat :=
  [categoryCount catSourceCode rows, categoryCount catTestCode rows,
   categoryCount catReadme rows, categoryCount catLicense rows]

/-- What the reporter does after printing the counts: either render and save
the bar chart to the fixed path, or print the informational message. -/
inductive ReportAction where
  | chart : String → ReportAction
  | message : ReportAction
deriving DecidableEq

/-- `if any(counts.values()): ... plt.savefig("mismatch_statistics.png") ...
else: print(...)`. -/
def reportAction (rows : List Row) : ReportAction :=
  if (categoryCounts rows).any (fun n => n != 0)
  then ReportAction.chart "mismatch_statistics.png"
  else ReportAction.message

/-- The simplified verdict stated by the claim that the line-count disjunct
is redundant: `"Yes"` exactly when the normalized texts are unequal. Written
from the words of the claim, to be compared with `discrepancyVerdict`. -/
def discrepancyByInequality (normMyers normHist : String) : String :=
  if normMyers ≠ normHist then "Yes" else "No"

/-! Lemmas about `pyStrip`. -/

theorem dropWhile_idem (p : α → Bool) (l : List α) :
    List.dropWhile p (List.dropWhile p l) = List.dropWhile p l := by
  induction l with
  | nil => rfl
  | cons a l ih =>
    by_cases h : p a = true
    · simp [List.dropWhile_cons, h, ih]
    · simp [List.dropWhile_cons, h]

theorem dropWhile_of_prefix (p : α → Bool) {l l2 : List α}
    (h : List.dropWhile p l = l) (hpre : l2 <+: l) :
    List.dropWhile p l2 = l2 := by
  cases l2 with
  | nil => rfl
  | cons a t2 =>
    obtain ⟨t, ht⟩ := hpre
    have ha : p a = false := by
      by_contra hcon
      have ha' : p a = true := by
        cases hp : p a
        · exact absurd hp hcon
        · rfl
      rw [← ht, List.cons_append] at h
      rw [List.dropWhile_cons, if_pos ha'] at h
      have hle : (List.dropWhile p (t2 ++ t)).length ≤ (t2 ++ t).length :=
        (List.dropWhile_sublist p).length_le
      rw [h] at hle
      simp at hle
    simp [List.dropWhile_cons, ha]

/-- The back half of `pyStrip`: drop trailing characters satisfying `p`. -/
theorem pyStrip_eq (l : List Char) :
    pyStrip l =
      ((List.dropWhile isPySpace l).reverse.dropWhile isPySpace).reverse := rfl

theorem dropWhile_reverse_prefix (p : α → Bool) (l : List α) :
    (List.dropWhile p l.reverse).reverse <+: l := by
  rw [← List.reverse_suffix, List.reverse_reverse]
  exact List.dropWhile_suffix p

theorem pyStrip_prefix_dropWhile (l : List Char) :
    pyStrip l <+: List.dropWhile isPySpace l := by
  rw [pyStrip_eq]
  exact dropWhile_reverse_prefix isPySpace (List.dropWhile isPySpace l)

theorem pyStrip_sublist (l : List Char) : (pyStrip l).Sublist l :=
  ((pyStrip_prefix_dropWhile l).sublist).trans (List.dropWhile_sublist isPySpace)

theorem mem_of_mem_pyStrip {c : Char} {l : List Char} (h : c ∈ pyStrip l) :
    c ∈ l :=
  (pyStrip_sublist l).subset h

theorem dropWhile_pyStrip (l : List Char) :
    List.dropWhile isPySpace (pyStrip l) = pyStrip l := by
  have hclean : List.dropWhile isPySpace (List.dropWhile isPySpace l) =
      List.dropWhile isPySpace l := dropWhile_idem isPySpace l
  exact dropWhile_of_prefix isPySpace hclean (pyStrip_prefix_dropWhile l)

theorem pyStrip_idem (l : List Char) : pyStrip (pyStrip l) = pyStrip l := by
  rw [pyStrip_eq (pyStrip l), dropWhile_pyStrip]
  rw [pyStrip_eq l, List.reverse_reverse, dropWhile_idem]

/-! Lemmas about `pySplitlines` and `joinLines`. -/

theorem break_of_cr : isLineBreakChar '\r' = true := rfl

theorem break_of_lf : isLineBreakChar '\n' = true := rfl

theorem pySplitlines_cons (c : Char) (cs : List Char) :
    pySplitlines (c :: cs) =
      if c = '\r' then
        match cs with
        | [] => [[]]
        | c2 :: rest =>
          if c2 = '\n' then [] :: pySplitlines rest else [] :: pySplitlines (c2 :: rest)
      else if isLineBreakChar c then
        [] :: pySplitlines cs
      else
        consHead c (pySplitlines cs) := by
  rw [pySplitlines.eq_def]

theorem pySplitlines_crlf (rest : List Char) :
    pySplitlines ('\r' :: '\n' :: rest) = [] :: pySplitlines rest := by
  rw [pySplitlines_cons, if_pos rfl]
  exact if_pos rfl

theorem pySplitlines_cr_nil : pySplitlines ['\r'] = [[]] := rfl

theorem pySplitlines_cr_cons {b : Char} (bs : List Char) (hb : b ≠ '\n') :
    pySplitlines ('\r' :: b :: bs) = [] :: pySplitlines (b :: bs) := by
  rw [pySplitlines_cons, if_pos rfl]
  exact if_neg hb

theorem pySplitlines_break {c : Char} (cs : List Char) (hcr : c ≠ '\r')
    (hbr : isLineBreakChar c = true) :
    pySplitlines (c :: cs) = [] :: pySplitlines cs := by
  rw [pySplitlines_cons, if_neg hcr, if_pos hbr]

theorem pySplitlines_plain {c : Char} (cs : List Char) (hcr : c ≠ '\r')
    (hbr : isLineBreakChar c = false) :
    pySplitlines (c :: cs) = consHead c (pySplitlines cs) := by
  rw [pySplitlines_cons, if_neg hcr, if_neg (by simp [hbr])]

theorem splitlines_no_break (l : List Char) :
    ∀ x ∈ pySplitlines l, ∀ c ∈ x, isLineBreakChar c = false := by
  induction l using pySplitlines.induct with
  | case1 => intro x hx; simp [pySplitlines] at hx
  | case2 =>
    intro x hx
    rw [pySplitlines_cr_nil, List.mem_singleton] at hx
    subst hx
    intro c hc
    simp at hc
  | case3 rest ih =>
    intro x hx
    rw [pySplitlines_crlf, List.mem_cons] at hx
    rcases hx with hx | hx
    · subst hx; intro c hc; simp at hc
    · exact ih x hx
  | case4 c2 rest2 hne ih =>
    intro x hx
    rw [pySplitlines_cr_cons rest2 (fun h => hne h), List.mem_cons] at hx
    rcases hx with hx | hx
    · subst hx; intro c hc; simp at hc
    · exact ih x hx
  | case5 c cs hcr hbr ih =>
    intro x hx
    rw [pySplitlines_break cs hcr hbr, List.mem_cons] at hx
    rcases hx with hx | hx
    · subst hx; intro a ha; simp at ha
    · exact ih x hx
  | case6 c cs hcr hbr ih =>
    intro x hx
    have hbr' : isLineBreakChar c = false := by
      cases h : isLineBreakChar c
      · rfl
      · exact absurd h hbr
    rw [pySplitlines_plain cs hcr hbr'] at hx
    cases hsp : pySplitlines cs with
    | nil =>
      rw [hsp] at hx
      simp [consHead] at hx
      subst hx
      intro a ha
      rw [List.mem_singleton] at ha
      subst ha
      exact hbr'
    | cons y ys =>
      rw [hsp, consHead, List.mem_cons] at hx
      rcases hx with hx | hx
      · subst hx
        intro a ha
        rw [List.mem_cons] at ha
        rcases ha with ha | ha
        · subst ha; exact hbr'
        · exact ih y (by rw [hsp]; exact List.mem_cons_self y ys) a ha
      · exact ih x (by rw [hsp]; exact List.mem_cons_of_mem y hx)

theorem ne_cr_of_not_break {c : Char} (hc : isLineBreakChar c = false) :
    c ≠ '\r' := by
  intro h
  subst h
  exact absurd hc (by decide)

theorem splitlines_append_newline {l : List Char} (rest : List Char)
    (h : ∀ c ∈ l, isLineBreakChar c = false) :
    pySplitlines (l ++ '\n' :: rest) = l :: pySplitlines rest := by
  induction l with
  | nil =>
    simp only [List.nil_append]
    exact pySplitlines_break rest (by decide) break_of_lf
  | cons c cs ih =>
    have hc : isLineBreakChar c = false := h c (List.mem_cons_self c cs)
    rw [List.cons_append, pySplitlines_plain _ (ne_cr_of_not_break hc) hc,
        ih (fun a ha => h a (List.mem_cons_of_mem c ha))]
    rfl

theorem splitlines_of_no_break {l : List Char} (hne : l ≠ [])
    (h : ∀ c ∈ l, isLineBreakChar c = false) : pySplitlines l = [l] := by
  induction l with
  | nil => exact absurd rfl hne
  | cons c cs ih =>
    have hc : isLineBreakChar c = false := h c (List.mem_cons_self c cs)
    rw [pySplitlines_plain cs (ne_cr_of_not_break hc) hc]
    cases cs with
    | nil => rfl
    | cons b bs =>
      rw [ih (by simp) (fun a ha => h a (List.mem_cons_of_mem c ha))]
      rfl

/-- Splitting the `"\n"`-join of a break-free line list recovers the list,
except that a single trailing empty line is absorbed by the final `"\n"`
(mirroring Python, where a terminated empty final line and no final line
are indistinguishable in the joined text). -/
theorem splitlines_joinLines (L : List (List Char))
    (h : ∀ x ∈ L, ∀ c ∈ x, isLineBreakChar c = false) :
    pySplitlines (joinLines L) =
      if L.getLast? = some [] then L.dropLast else L := by
  induction L with
  | nil => rfl
  | cons l ls ih =>
    cases ls with
    | nil =>
      rcases eq_or_ne l [] with hl | hl
      · subst hl
        rfl
      · rw [show joinLines [l] = l from rfl,
            splitlines_of_no_break hl (fun c hc => h l (List.mem_singleton.mpr rfl) c hc),
            if_neg (by simp [List.getLast?_singleton, hl])]
    | cons l2 ls2 =>
      rw [show joinLines (l :: l2 :: ls2) = l ++ '\n' :: joinLines (l2 :: ls2) from rfl,
          splitlines_append_newline _ (fun c hc => h l (List.mem_cons_self _ _) c hc),
          ih (fun x hx c hc => h x (List.mem_cons_of_mem l hx) c hc)]
      by_cases hlast : (l2 :: ls2).getLast? = some []
      · rw [if_pos hlast, if_pos (by rw [List.getLast?_cons_cons]; exact hlast)]
        rfl
      · rw [if_neg hlast, if_neg (by rw [List.getLast?_cons_cons]; exact hlast)]

/-! Lemmas about `normLines` and `normalize_diff`. -/

theorem normLines_stripped (l : List Char) :
    ∀ x ∈ normLines l, pyStrip x = x := by
  intro x hx
  rw [normLines, List.mem_map] at hx
  obtain ⟨y, hy, rfl⟩ := hx
  exact pyStrip_idem y

theorem normLines_no_break (l : List Char) :
    ∀ x ∈ normLines l, ∀ c ∈ x, isLineBreakChar c = false := by
  intro x hx c hc
  rw [normLines, List.mem_map] at hx
  obtain ⟨y, hy, rfl⟩ := hx
  exact splitlines_no_break l y (List.mem_of_mem_filter hy) c (mem_of_mem_pyStrip hc)

theorem normalize_diff_data (s : String) :
    (normalize_diff s).data = joinLines (normLines s.data) := rfl

/-- The line list of a normalized text: the line list that normalization built,
up to the absorption of a single trailing empty line by the join. -/
theorem splitlines_normalize (s : String) :
    pySplitlines (normalize_diff s).data =
      if (normLines s.data).getLast? = some [] then (normLines s.data).dropLast
      else normLines s.data := by
  rw [normalize_diff_data]
  exact splitlines_joinLines _ (normLines_no_break s.data)

/-! Claim C1. -/

/-- C1 (counterexample): normalization is not idempotent as claimed.
Python `splitlines` keeps a terminated empty final line but drops an
unterminated one, so `normalize_diff "a\n\n" = "a\n"` while
`normalize_diff "a\n" = "a"`: normalizing twice differs from normalizing
once on the input `"a\n\n"`. -/
theorem C1_not_idempotent :
    normalize_diff (normalize_diff "a\n\n") ≠ normalize_diff "a\n\n" := by
  decide

/-- C1 (amended): normalization is idempotent on every diff text whose
normalized line list does not end with an empty line and contains no line
that begins with `index`, `---` or `+++` (a line can gain such a prefix
when stripping removes leading whitespace). On such inputs
`normalize_diff (normalize_diff T) = normalize_diff T`. -/
theorem C1_normalize_idem (T : String)
    (hTail : (normLines T.data).getLast? ≠ some [])
    (hNoise : ∀ x ∈ normLines T.data, isNoiseLine x = false) :
    normalize_diff (normalize_diff T) = normalize_diff T := by
  have hsplit : pySplitlines (normalize_diff T).data = normLines T.data := by
    rw [splitlines_normalize, if_neg hTail]
  have hmap : (normLines T.data).map pyStrip = normLines T.data := by
    rw [show (normLines T.data).map pyStrip = (normLines T.data).map id from
          List.map_congr_left (fun x hx => normLines_stripped T.data x hx),
        List.map_id]
  have hfix : normLines (normalize_diff T).data = normLines T.data := by
    rw [normLines, hsplit,
        List.filter_eq_self.mpr (fun x hx => by rw [hNoise x hx]; rfl), hmap]
  show String.mk (joinLines (normLines (normalize_diff T).data)) = normalize_diff T
  rw [hfix]
  rfl

/-- Witness for C1: the amended idempotence applied to the concrete diff
text `"a\nb"`, whose side conditions hold by computation. -/
theorem C1_normalize_idem_witness :
    ((normLines ("a\nb" : String).data).getLast? ≠ some []
        ∧ ∀ x ∈ normLines ("a\nb" : String).data, isNoiseLine x = false)
    ∧ normalize_diff (normalize_diff "a\nb") = normalize_diff "a\nb" :=
  ⟨⟨by decide, by decide⟩, C1_normalize_idem "a\nb" (by decide) (by decide)⟩

/-! Claim C4. -/

/-- C4: the normalized output is exactly the `"\n"`-join of the stripped
forms of those input lines that do not start with `index`, `---` or `+++`,
in input order — so every marker-prefixed input line occurrence is removed
and every remaining line is retained stripped. Moreover the line sequence
obtained by re-splitting the output equals that retained list exactly,
except that a single trailing empty retained line is absorbed by the final
`"\n"` of the join; and every line of the output is whitespace-stripped. -/
theorem C4_normalize_shape (T : String) :
    (normalize_diff T).data =
      joinLines (((pySplitlines T.data).filter fun x => !isNoiseLine x).map pyStrip)
    ∧ pySplitlines (normalize_diff T).data =
        (if (((pySplitlines T.data).filter fun x => !isNoiseLine x).map pyStrip).getLast?
            = some []
         then (((pySplitlines T.data).filter fun x => !isNoiseLine x).map pyStrip).dropLast
         else ((pySplitlines T.data).filter fun x => !isNoiseLine x).map pyStrip)
    ∧ (∀ x ∈ pySplitlines (normalize_diff T).data, pyStrip x = x) := by
  have hlines : pySplitlines (normalize_diff T).data =
      if (normLines T.data).getLast? = some [] then (normLines T.data).dropLast
      else normLines T.data := splitlines_normalize T
  have hsub : (pySplitlines (normalize_diff T).data).Sublist (normLines T.data) := by
    rw [hlines]
    by_cases hlast : (normLines T.data).getLast? = some []
    · rw [if_pos hlast]
      exact List.dropLast_sublist _
    · rw [if_neg hlast]
  exact ⟨rfl, hlines, fun x hx => normLines_stripped T.data x (hsub.subset hx)⟩

/-! Lemmas about the discrepancy verdict and the emitted rows. -/

theorem discrepancyVerdict_spec (a b : String) :
    (discrepancyVerdict a b = "Yes" ↔ (a ≠ b ∨ pyLineCount a ≠ pyLineCount b))
    ∧ (discrepancyVerdict a b = "No" ↔ (a = b ∧ pyLineCount a = pyLineCount b)) := by
  by_cases h : a ≠ b ∨ pyLineCount a ≠ pyLineCount b
  · rw [discrepancyVerdict, if_pos h]
    refine ⟨⟨fun _ => h, fun _ => rfl⟩, ⟨fun hx => absurd hx (by decide), fun hx => ?_⟩⟩
    rcases h with h | h
    · exact absurd hx.1 h
    · exact absurd hx.2 h
  · have heq : a = b ∧ pyLineCount a = pyLineCount b := by
      rw [not_or, not_not, not_not] at h
      exact h
    rw [discrepancyVerdict, if_neg h]
    exact ⟨⟨fun hx => absurd hx (by decide), fun hx => absurd hx h⟩,
           ⟨fun _ => heq, fun _ => rfl⟩⟩

/-- Inversion on membership in the inner loop body: a produced row
determines both paths, a first parent, and every field of the row. -/
theorem mem_rowsForMod_eq {g : GitDiff} {rn rp : String} {c : Commit}
    {m : FileMod} {r : Row} (hr : r ∈ rowsForMod g rn rp c m) :
    ∃ op np parent ps, m.old_path = some op ∧ m.new_path = some np ∧
      c.parents = parent :: ps ∧
      r = ⟨rn, op, np, c.hash, parent, String.mk (pyStrip c.msg.data),
           g rp parent c.hash np "myers", g rp parent c.hash np "histogram",
           discrepancyVerdict (normalize_diff (g rp parent c.hash np "myers"))
             (normalize_diff (g rp parent c.hash np "histogram"))⟩ := by
  cases m with
  | mk op np =>
    cases op with
    | none => simp [rowsForMod] at hr
    | some op =>
      cases np with
      | none => simp [rowsForMod] at hr
      | some np =>
        rw [rowsForMod] at hr
        cases hp : c.parents with
        | nil => rw [hp] at hr; simp at hr
        | cons parent ps =>
          rw [hp] at hr
          simp only [List.mem_singleton] at hr
          exact ⟨op, np, parent, ps, rfl, rfl, rfl, hr⟩

/-! Claim C5. -/

/-- C5: the line-count disjunct of the discrepancy condition is redundant:
the verdict computed by the OR-combined condition coincides with the
verdict computed from string inequality alone, for all pairs of normalized
texts. -/
theorem C5_line_count_redundant (a b : String) :
    discrepancyVerdict a b = discrepancyByInequality a b := by
  by_cases h : a = b
  · subst h
    rw [discrepancyVerdict, discrepancyByInequality,
        if_neg (by simp), if_neg (by simp)]
  · rw [discrepancyVerdict, discrepancyByInequality,
        if_pos (Or.inl h), if_pos h]

/-! Claim C2. -/

/-- C2: a row emitted for a modified file carries verdict `"Yes"` exactly
when the normalized Myers and Histogram texts are unequal or their
splitlines counts differ, and verdict `"No"` otherwise. -/
theorem C2_verdict_iff (g : GitDiff) (rn rp : String) (c : Commit)
    (m : FileMod) (r : Row) (hr : r ∈ rowsForMod g rn rp c m) :
    (r.discrepancy = "Yes" ↔
      (normalize_diff r.diff_myers ≠ normalize_diff r.diff_hist
        ∨ pyLineCount (normalize_diff r.diff_myers) ≠
            pyLineCount (normalize_diff r.diff_hist)))
    ∧ (r.discrepancy = "No" ↔
      (normalize_diff r.diff_myers = normalize_diff r.diff_hist
        ∧ pyLineCount (normalize_diff r.diff_myers) =
            pyLineCount (normalize_diff r.diff_hist))) := by
  obtain ⟨op, np, parent, ps, hop, hnp, hp, hrow⟩ := mem_rowsForMod_eq hr
  subst hrow
  exact discrepancyVerdict_spec _ _

/-- Witness for C2: the verdict equivalence at a concrete commit whose two
diff invocations return the distinct texts `"myers"` and `"histogram"`. -/
theorem C2_verdict_iff_witness :
    ((⟨"rn", "a.py", "b.py", "c", "p", "m", "myers", "histogram", "Yes"⟩ : Row).discrepancy
        = "Yes" ↔
      (normalize_diff (Row.diff_myers ⟨"rn", "a.py", "b.py", "c", "p", "m", "myers", "histogram", "Yes"⟩)
          ≠ normalize_diff (Row.diff_hist ⟨"rn", "a.py", "b.py", "c", "p", "m", "myers", "histogram", "Yes"⟩)
        ∨ pyLineCount (normalize_diff (Row.diff_myers ⟨"rn", "a.py", "b.py", "c", "p", "m", "myers", "histogram", "Yes"⟩))
            ≠ pyLineCount (normalize_diff (Row.diff_hist ⟨"rn", "a.py", "b.py", "c", "p", "m", "myers", "histogram", "Yes"⟩))))
    ∧ ((⟨"rn", "a.py", "b.py", "c", "p", "m", "myers", "histogram", "Yes"⟩ : Row).discrepancy
        = "No" ↔
      (normalize_diff (Row.diff_myers ⟨"rn", "a.py", "b.py", "c", "p", "m", "myers", "histogram", "Yes"⟩)
          = normalize_diff (Row.diff_hist ⟨"rn", "a.py", "b.py", "c", "p", "m", "myers", "histogram", "Yes"⟩)
        ∧ pyLineCount (normalize_diff (Row.diff_myers ⟨"rn", "a.py", "b.py", "c", "p", "m", "myers", "histogram", "Yes"⟩))
            = pyLineCount (normalize_diff (Row.diff_hist ⟨"rn", "a.py", "b.py", "c", "p", "m", "myers", "histogram", "Yes"⟩)))) :=
  C2_verdict_iff (fun _ _ _ _ algo => algo) "rn" "rp"
    ⟨"c", ["p"], "m", [⟨some "a.py", some "b.py"⟩]⟩
    ⟨some "a.py", some "b.py"⟩
    ⟨"rn", "a.py", "b.py", "c", "p", "m", "myers", "histogram", "Yes"⟩
    (by decide)

/-! Claim C6. -/

/-- C6: if the two diff invocations return byte-identical raw text for a
file, the discrepancy verdict of the emitted row is `"No"`. -/
theorem C6_identical_raw_no (g : GitDiff) (rn rp : String) (c : Commit)
    (m : FileMod) (r : Row) (hr : r ∈ rowsForMod g rn rp c m)
    (heq : r.diff_myers = r.diff_hist) : r.discrepancy = "No" := by
  obtain ⟨op, np, parent, ps, hop, hnp, hp, hrow⟩ := mem_rowsForMod_eq hr
  subst hrow
  simp only at heq
  show discrepancyVerdict _ _ = "No"
  rw [heq]
  exact (discrepancyVerdict_spec _ _).2.mpr ⟨rfl, rfl⟩

/-- Witness for C6: a concrete commit whose diff invocations return the
same text `"d"` for both algorithms yields verdict `"No"`. -/
theorem C6_identical_raw_no_witness :
    (⟨"rn", "a.py", "b.py", "c", "p", "m", "d", "d",
        discrepancyVerdict (normalize_diff "d") (normalize_diff "d")⟩ : Row).discrepancy
      = "No" :=
  C6_identical_raw_no (fun _ _ _ _ _ => "d") "rn" "rp"
    ⟨"c", ["p"], "m", [⟨some "a.py", some "b.py"⟩]⟩
    ⟨some "a.py", some "b.py"⟩
    ⟨"rn", "a.py", "b.py", "c", "p", "m", "d", "d",
      discrepancyVerdict (normalize_diff "d") (normalize_diff "d")⟩
    (by decide) rfl

/-! Claim C3. -/

theorem rowsForMod_of_no_parent {g : GitDiff} {rn rp : String} {c : Commit}
    (hp : c.parents = []) (m : FileMod) : rowsForMod g rn rp c m = [] := by
  cases m with
  | mk op np =>
    cases op with
    | none => simp [rowsForMod]
    | some op =>
      cases np with
      | none => simp [rowsForMod]
      | some np => rw [rowsForMod, hp]

theorem rowsForMod_length {g : GitDiff} {rn rp : String} {c : Commit}
    (hp : c.parents ≠ []) (m : FileMod) :
    (rowsForMod g rn rp c m).length =
      if m.old_path.isSome && m.new_path.isSome then 1 else 0 := by
  cases m with
  | mk op np =>
    cases hp2 : c.parents with
    | nil => exact absurd hp2 hp
    | cons parent ps =>
      cases op with
      | none => simp [rowsForMod]
      | some op =>
        cases np with
        | none => simp [rowsForMod]
        | some np => rw [rowsForMod, hp2]; rfl

/-- C3: one dataset row per qualifying (commit, modified-file) pair: a
commit with an empty parent list emits no rows at all, a modified file
missing either path emits no row, and for a commit with at least one parent
the number of rows equals the number of modified files with both paths
present. -/
theorem C3_row_invariant (g : GitDiff) (rn rp : String) (c : Commit) :
    (c.parents = [] → rowsForCommit g rn rp c = [])
    ∧ (∀ m, (m.old_path = none ∨ m.new_path = none) → rowsForMod g rn rp c m = [])
    ∧ (c.parents ≠ [] →
        (rowsForCommit g rn rp c).length =
          (c.modified_files.filter fun m =>
            m.old_path.isSome && m.new_path.isSome).length) := by
  refine ⟨?_, ?_, ?_⟩
  · intro hp
    rw [rowsForCommit]
    induction c.modified_files with
    | nil => rfl
    | cons m ms ih =>
      rw [List.flatMap_cons, rowsForMod_of_no_parent hp m, List.nil_append]
      exact ih
  · intro m hm
    cases m with
    | mk op np =>
      rcases hm with hm | hm
      · simp only at hm
        subst hm
        simp [rowsForMod]
      · simp only at hm
        subst hm
        cases op with
        | none => simp [rowsForMod]
        | some op => simp [rowsForMod]
  · intro hp
    rw [rowsForCommit]
    induction c.modified_files with
    | nil => rfl
    | cons m ms ih =>
      rw [List.flatMap_cons, List.length_append, ih, List.filter_cons,
          rowsForMod_length hp m]
      by_cases hm : (m.old_path.isSome && m.new_path.isSome) = true
      · rw [if_pos hm, if_pos hm, List.length_cons]
        omega
      · rw [if_neg hm, if_neg hm]
        omega

/-- Witness for C3: a root commit (empty parent list) with one fully
specified modified file contributes no rows. -/
theorem C3_row_invariant_witness :
    rowsForCommit (fun _ _ _ _ _ => "") "MaxKB" "repos/MaxKB"
      ⟨"deadbeef", [], "msg", [⟨some "a.py", some "a.py"⟩]⟩ = [] :=
  (C3_row_invariant (fun _ _ _ _ _ => "") "MaxKB" "repos/MaxKB"
    ⟨"deadbeef", [], "msg", [⟨some "a.py", some "a.py"⟩]⟩).1 rfl

/-! Claim C9. -/

theorem repoLoop_take (g : GitDiff) (rn rp : String) (cap : Nat)
    (commits : List Commit) :
    ∀ count, repoLoop g rn rp cap count commits =
      (commits.take (cap - count)).flatMap (rowsForCommit g rn rp) := by
  induction commits with
  | nil => intro count; simp [repoLoop]
  | cons c cs ih =>
    intro count
    by_cases h : cap ≤ count
    · rw [repoLoop, if_pos h, Nat.sub_eq_zero_of_le h]
      rfl
    · have hsub : cap - count = (cap - (count + 1)) + 1 := by omega
      rw [repoLoop, if_neg h, hsub, List.take_succ_cons, List.flatMap_cons,
          ih (count + 1)]

/-- C9: the repository loop processes exactly the first `max_commits`
commits of the traversal (commits yielded past the cap contribute no rows),
and repositories contribute their rows in configuration order — stated
both for an arbitrary configuration list and for the concrete `repos`
table of the script. -/
theorem C9_cap_and_order (g : GitDiff) (traverse : String → List Commit) :
    (∀ (rn rp : String) (cap : Nat) (commits : List Commit),
        repoLoop g rn rp cap 0 commits =
          (commits.take cap).flatMap (rowsForCommit g rn rp))
    ∧ (∀ (r : RepoEntry) (rs : List RepoEntry),
        pipelineRows g traverse (r :: rs) =
          repoRows g traverse r ++ pipelineRows g traverse rs)
    ∧ pipelineRows g traverse reposConfig =
        repoRows g traverse ⟨"MaxKB", "https://github.com/1Panel-dev/MaxKB.git", 100⟩ ++
          repoRows g traverse
            ⟨"police-brutality", "https://github.com/2020pb/police-brutality.git", 100⟩ ++
          repoRows g traverse ⟨"manim", "https://github.com/3b1b/manim.git", 300⟩ := by
  refine ⟨fun rn rp cap commits => ?_, fun r rs => ?_, ?_⟩
  · rw [repoLoop_take g rn rp cap commits 0, Nat.sub_zero]
  · rw [pipelineRows, List.flatMap_cons]
    rfl
  · rw [pipelineRows, reposConfig]
    simp [List.flatMap_cons, List.append_assoc]

/-! Claim C7. -/

/-- C7: category counts are taken independently over the discrepant rows:
appending a single discrepant row whose new path satisfies both the
`Source Code` and the `Test Code` predicates increments both category
counts by one. -/
theorem C7_overlapping_categories (rows : List Row) (r : Row)
    (hdisc : r.discrepancy = "Yes")
    (hsrc : catSourceCode r.new_file_path = true)
    (htest : catTestCode r.new_file_path = true) :
    categoryCount catSourceCode (rows ++ [r]) = categoryCount catSourceCode rows + 1
    ∧ categoryCount catTestCode (rows ++ [r]) = categoryCount catTestCode rows + 1 := by
  constructor <;>
    simp [categoryCount, mismatches, List.filter_append, hdisc, hsrc, htest]

/-- Witness for C7: the path `test_utils.py` matches both the source-code
suffix predicate and the test substring predicate, and a discrepant row
with that path is counted in both buckets. -/
theorem C7_overlapping_categories_witness :
    categoryCount catSourceCode
        ([] ++ [(⟨"manim", "test_utils.py", "test_utils.py", "c", "p", "m",
                  "d1", "d2", "Yes"⟩ : Row)]) =
      categoryCount catSourceCode [] + 1
    ∧ categoryCount catTestCode
        ([] ++ [(⟨"manim", "test_utils.py", "test_utils.py", "c", "p", "m",
                  "d1", "d2", "Yes"⟩ : Row)]) =
      categoryCount catTestCode [] + 1 :=
  C7_overlapping_categories []
    ⟨"manim", "test_utils.py", "test_utils.py", "c", "p", "m", "d1", "d2", "Yes"⟩
    rfl (by decide) (by decide)

/-! Claim C8. -/

/-- C8: the reporter renders and saves the bar chart to the fixed path
exactly when some category count is nonzero, and prints the informational
message (skipping chart generation) exactly when all four counts are
zero. -/
theorem C8_zero_counts_skip_chart (rows : List Row) :
    (reportAction rows = ReportAction.message ↔
      ∀ n ∈ categoryCounts rows, n = 0)
    ∧ (reportAction rows = ReportAction.chart "mismatch_statistics.png" ↔
      ∃ n ∈ categoryCounts rows, n ≠ 0) := by
  rw [reportAction]
  by_cases h : (categoryCounts rows).any (fun n => n != 0) = true
  · rw [if_pos h]
    rw [List.any_eq_true] at h
    obtain ⟨n, hn, hne⟩ := h
    rw [bne_iff_ne] at hne
    constructor
    · exact ⟨fun hx => absurd hx (by decide), fun hall => absurd (hall n hn) hne⟩
    · exact ⟨fun _ => ⟨n, hn, hne⟩, fun _ => rfl⟩
  · rw [if_neg h]
    rw [List.any_eq_true] at h
    push_neg at h
    have hall : ∀ n ∈ categoryCounts rows, n = 0 := by
      intro n hn
      have h2 : ¬(n ≠ 0) := fun hne => (h n hn) (bne_iff_ne.mpr hne)
      exact not_not.mp h2
    constructor
    · exact ⟨fun _ => hall, fun _ => rfl⟩
    · constructor
      · intro hx
        exact absurd hx (by decide)
      · intro hx
        obtain ⟨n, hn, hne⟩ := hx
        exact absurd (hall n hn) hne

/-! Claim C10. -/

/-- C10: the header filter matches by literal prefix only — every line
beginning with `---`, `+++` or `index` is removed, whether or not it is a
header. A deleted content line whose text begins with `--` renders as a
diff line starting with `---`, so the two raw texts below differ only in
that content line, normalize to the same string, and receive verdict
`"No"`. -/
theorem C10_literal_prefix_collision :
    ("@@ -1,2 +1,2 @@\n---old\n+new" : String) ≠ "@@ -1,2 +1,2 @@\n+new"
    ∧ normalize_diff "@@ -1,2 +1,2 @@\n---old\n+new" =
        normalize_diff "@@ -1,2 +1,2 @@\n+new"
    ∧ discrepancyVerdict (normalize_diff "@@ -1,2 +1,2 @@\n---old\n+new")
        (normalize_diff "@@ -1,2 +1,2 @@\n+new") = "No"
    ∧ (∀ rest : List Char, isNoiseLine ('-' :: '-' :: '-' :: rest) = true)
    ∧ (∀ rest : List Char, isNoiseLine ('+' :: '+' :: '+' :: rest) = true)
    ∧ (∀ rest : List Char,
        isNoiseLine ('i' :: 'n' :: 'd' :: 'e' :: 'x' :: rest) = true) := by
  refine ⟨by decide, by decide, by decide, ?_, ?_, ?_⟩ <;>
    · intro rest
      simp [isNoiseLine, List.isPrefixOf]

end DiffPipeline
